import Mathlib

/-!
Verification of the Proposols MCP knowledge engine against its code.

The development shallowly embeds three parts of the repository:

* the hybrid search function `search_experience` from
  `proposal_mcp_schema.sql` (semantic branch, full-text branch,
  reciprocal-rank fusion, ordering, truncation);
* the embedding-queue drain loop from the `process-embeddings` edge
  function (job selection, claiming, re-reading record text, provider
  call, completion / failure bookkeeping);
* the validation handlers from `supabase/functions/validation-response`
  and `supabase/functions/validation-webhook` (status writes, derived
  experience insertion, linking).

SQL `ORDER BY` and `ROW_NUMBER() OVER (ORDER BY ...)` leave the relative
order of tied keys unspecified; the embedding models them with a stable
insertion sort over the physical row order, so the dependence of results
on row order is explicit.  UUIDs are modelled as naturals, timestamps as
naturals, numeric scores as rationals, and the external embedding
provider and pgvector / tsvector scoring functions as parameters.

Rational addition, subtraction and the reciprocal-rank fraction are
spelled through `Rat.normalize` / `Rat.divInt` so that concrete runs
reduce inside the kernel; `qadd_eq`, `qsub_eq` and `rrfFraction_eq`
identify them with the ordinary field operations.
-/

namespace ProposalMCP

/-! ### Stable sorting (model of SQL ORDER BY over the physical row order) -/

/-- Insert `x` into `l`, keeping it before the first element `y` with
`le x y`; over a sorted list this is the usual stable insertion. -/
def insertLe (le : α → α → Bool) (x : α) : List α → List α
  | [] => [x]
  | y :: ys => if le x y then x :: y :: ys else y :: insertLe le x ys

/-- Stable insertion sort: elements equal under the order keep their
relative position from the input list. -/
def sortByLe (le : α → α → Bool) : List α → List α
  | [] => []
  | a :: l => insertLe le a (sortByLe le l)

/-! ### Kernel-reducible rational arithmetic -/

/-- Rational addition written through `Rat.normalize`; equal to `a + b`
by `qadd_eq`. -/
def qadd (a b : ℚ) : ℚ :=
  Rat.normalize (a.num * b.den + b.num * a.den) (a.den * b.den)
    (Nat.mul_ne_zero a.den_nz b.den_nz)

/-- Rational subtraction written through `Rat.normalize`; equal to
`a - b` by `qsub_eq`. -/
def qsub (a b : ℚ) : ℚ :=
  Rat.normalize (a.num * b.den - b.num * a.den) (a.den * b.den)
    (Nat.mul_ne_zero a.den_nz b.den_nz)

/-- The reciprocal-rank-fusion term `1 / (60 + rank)` with K = 60;
equal to the field expression by `rrfFraction_eq`. -/
def rrfFraction (r : Nat) : ℚ :=
  Rat.divInt 1 (60 + (r : Int))

/-! ### Data model: `experience` table rows -/

/-- A row of the `experience` table (a KnowledgeEntry): the columns read
or written by the hybrid search function and the validation handlers. -/
structure Experience where
  id : Nat
  tenant_id : Nat
  description : String
  keywords : List String
  entity_type : Option String
  entity_id : Option Nat
  entity_name : Option String
  source_type : String
  source_id : Option Nat
  confidence_score : ℚ
  supersedes_experience_id : Option Nat
  embedding : Option (List ℚ)
  is_validated : Bool
  created_at : Nat
  created_by : String
deriving DecidableEq, Repr

/-- A row returned by `search_experience`: the projected entry columns
(all COALESCEd from the same table row on either join side) together
with the summed similarity and the fused RRF score, which the SQL
function labels `rank`. -/
structure SearchRow where
  entry : Experience
  similarity : ℚ
  rank : ℚ
deriving DecidableEq, Repr

/-! ### Hybrid search: `search_experience` from proposal_mcp_schema.sql

The pgvector cosine distance `e.embedding <=> query_embedding` is
modelled by a parameter `dist : Experience → Option ℚ` (`none` for a
NULL embedding), the tsvector machinery by `ts_rank : Experience → ℚ`
and `fts_match : Experience → Bool` (the `@@` test).  These depend only
on the row and the fixed query, exactly as in the SQL. -/

/-- WHERE clause of the semantic CTE: validated, entity-type filter,
similarity `1 - dist` strictly above the threshold (false on NULL). -/
def vectorPass (dist : Experience → Option ℚ) (match_threshold : ℚ)
    (p_entity_type : Option String) (e : Experience) : Bool :=
  e.is_validated &&
    (match p_entity_type with
     | none => true
     | some t => e.entity_type = some t) &&
    (match dist e with
     | none => false
     | some d => decide (match_threshold < qsub 1 d))

/-- WHERE clause of the full-text CTE: validated, entity-type filter,
and the `search_vector @@ websearch_to_tsquery` test. -/
def keywordPass (fts_match : Experience → Bool)
    (p_entity_type : Option String) (e : Experience) : Bool :=
  e.is_validated &&
    (match p_entity_type with
     | none => true
     | some t => e.entity_type = some t) &&
    fts_match e

/-- Attach `ROW_NUMBER()` ranks `n, n+1, ...` and the per-branch
similarity to an already ordered candidate list. -/
def withRanks (sim : Experience → ℚ) (n : Nat) :
    List Experience → List (Experience × ℚ × Nat)
  | [] => []
  | e :: l => (e, sim e, n) :: withRanks sim (n + 1) l

/-- The `semantic_search` CTE: filter, order by cosine distance
ascending, number the rows from 1; the column `similarity` is
`1 - distance`. -/
def vectorRanked (dist : Experience → Option ℚ) (match_threshold : ℚ)
    (p_entity_type : Option String) (tbl : List Experience) :
    List (Experience × ℚ × Nat) :=
  withRanks (fun e => qsub 1 ((dist e).getD 0)) 1
    (sortByLe (fun a b => decide ((dist a).getD 0 ≤ (dist b).getD 0))
      (tbl.filter (vectorPass dist match_threshold p_entity_type)))

/-- The `fulltext_search` CTE: filter, order by `ts_rank` descending,
number the rows from 1. -/
def keywordRanked (ts_rank : Experience → ℚ) (fts_match : Experience → Bool)
    (p_entity_type : Option String) (tbl : List Experience) :
    List (Experience × ℚ × Nat) :=
  withRanks ts_rank 1
    (sortByLe (fun a b => decide (ts_rank b ≤ ts_rank a))
      (tbl.filter (keywordPass fts_match p_entity_type)))

/-- `COALESCE(1.0 / (60 + rank), 0.0)` for one join side. -/
def rrfTermOpt : Option Nat → ℚ
  | some r => rrfFraction r
  | none => 0

/-- One fused output row: `COALESCE(ss.col, fts.col)` column projection,
summed similarities, and `COALESCE(1/(60+ss.rank),0) +
COALESCE(1/(60+fts.rank),0)`. -/
def fuseRow (e : Experience) (simV : Option ℚ) (rkV : Option Nat)
    (simK : Option ℚ) (rkK : Option Nat) : SearchRow :=
  { entry := e
    similarity := qadd (simV.getD 0) (simK.getD 0)
    rank := qadd (rrfTermOpt rkV) (rrfTermOpt rkK) }

/-- `FULL OUTER JOIN ... ON ss.id = fts.id`: every semantic row, joined
with its full-text partner when one exists, followed by the full-text
rows that have no semantic partner. -/
def fuseJoin (ss fts : List (Experience × ℚ × Nat)) : List SearchRow :=
  ss.map (fun t =>
    match fts.find? (fun u => u.1.id = t.1.id) with
    | some u => fuseRow t.1 (some t.2.1) (some t.2.2) (some u.2.1) (some u.2.2)
    | none => fuseRow t.1 (some t.2.1) (some t.2.2) none none) ++
  (fts.filter (fun u => !(ss.any (fun t => t.1.id = u.1.id)))).map
    (fun u => fuseRow u.1 none none (some u.2.1) (some u.2.2))

/-- The combined candidate set of `search_experience` before the final
ORDER BY / LIMIT. -/
def fusedCandidates (dist : Experience → Option ℚ) (ts_rank : Experience → ℚ)
    (fts_match : Experience → Bool) (match_threshold : ℚ)
    (p_entity_type : Option String) (tbl : List Experience) : List SearchRow :=
  fuseJoin (vectorRanked dist match_threshold p_entity_type tbl)
    (keywordRanked ts_rank fts_match p_entity_type tbl)

/-- `search_experience`: fuse the two branches, `ORDER BY rank DESC`,
`LIMIT match_count`. -/
def search_experience (dist : Experience → Option ℚ) (ts_rank : Experience → ℚ)
    (fts_match : Experience → Bool) (match_threshold : ℚ) (match_count : Nat)
    (p_entity_type : Option String) (tbl : List Experience) : List SearchRow :=
  (sortByLe (fun a b => decide (b.rank ≤ a.rank))
    (fusedCandidates dist ts_rank fts_match match_threshold p_entity_type tbl)).take
    match_count

/-- The rank a record's id holds in a ranked branch candidate list, if
the record appears there. -/
def rankIn (e : Experience) (l : List (Experience × ℚ × Nat)) : Option Nat :=
  (l.find? (fun t => t.1.id = e.id)).map (fun t => t.2.2)

/-- The claim's reciprocal-rank-fusion contribution of one branch:
`1 / (60 + rank)` when the record appears in the branch, 0 when it is
absent. -/
def rrfOf : Option Nat → ℚ
  | some r => 1 / (60 + (r : ℚ))
  | none => 0

/-! ### Embedding job queue: the `process-embeddings` drain loop

Embeds the Deno edge function: select up to 10 pending jobs ordered by
priority, then for each job mark it processing (update keyed on the job
id only), re-read the target record, concatenate its per-table text
fields, call the provider, and write back either the embedding plus a
completed status or a failed status with the error message and an
incremented retry count.  The provider is a parameter
`embed : String → Option (List ℚ)` (`none` = non-ok HTTP response). -/

inductive JobStatus where
  | pending
  | processing
  | completed
  | failed
deriving DecidableEq, Repr

/-- A row of the `embedding_queue` table as the drain loop reads it.
The row carries no text payload: only the table name and record id. -/
structure EmbJob where
  id : Nat
  table_name : String
  record_id : Nat
  status : JobStatus
  retry_count : Nat
  priority : Nat
  error_message : Option String
  processed_at : Option Nat
deriving DecidableEq, Repr

/-- A searchable content record: the union of the text columns the drain
loop reads per table, plus the embedding slot it writes. -/
structure ContentRecord where
  id : Nat
  name : Option String
  description : Option String
  rate_notes : Option String
  vendor_name : Option String
  pricing_notes : Option String
  policy_name : Option String
  requirements : Option String
  keywords : Option (List String)
  project_title : Option String
  client_name : Option String
  parsed_markdown : Option String
  embedding : Option (List ℚ)
deriving DecidableEq, Repr

/-- JS `[...].filter(Boolean).join(' ')`: drop null and empty fields,
join the rest with single spaces. -/
def joinTruthy (parts : List (Option String)) : String :=
  String.intercalate " " ((parts.filterMap id).filter (fun s => s ≠ ""))

/-- The per-table text-field concatenation from the drain loop
(`if (job.table_name === 'internal_resources') ...` chain); an unknown
table leaves `text` empty. -/
def recordText (table_name : String) (r : ContentRecord) : String :=
  if table_name = "internal_resources" then
    joinTruthy [r.name, r.description, r.rate_notes]
  else if table_name = "external_resources" then
    joinTruthy [r.vendor_name, r.description, r.pricing_notes]
  else if table_name = "policies" then
    joinTruthy [r.policy_name, r.description, r.requirements]
  else if table_name = "experience" then
    joinTruthy [r.description, some ((r.keywords.map (String.intercalate " ")).getD "")]
  else if table_name = "rfps" then
    joinTruthy [r.project_title, r.client_name, r.parsed_markdown]
  else ""

/-- The queue database: the `embedding_queue` rows and the content rows,
each tagged with its table name. -/
structure QueueDB where
  jobs : List EmbJob
  records : List (String × ContentRecord)
deriving DecidableEq, Repr

/-- `.from(job.table_name).select('*').eq('id', job.record_id).single()`. -/
def findRecord (db : QueueDB) (tbl : String) (rid : Nat) : Option ContentRecord :=
  (db.records.find? (fun p => p.1 = tbl && p.2.id = rid)).map (fun p => p.2)

/-- `.update({status}).eq('id', jid)` on the queue: keyed on the job id
only, with no condition on the current status. -/
def setJobStatus (db : QueueDB) (jid : Nat) (st : JobStatus) : QueueDB :=
  { db with jobs := db.jobs.map (fun j =>
      if j.id = jid then { j with status := st } else j) }

/-- `.update({status:'completed', processed_at}).eq('id', jid)`. -/
def completeJob (db : QueueDB) (jid : Nat) (now : Nat) : QueueDB :=
  { db with jobs := db.jobs.map (fun j =>
      if j.id = jid then
        { j with status := JobStatus.completed, processed_at := some now }
      else j) }

/-- The catch branch: `.update({status:'failed', error_message,
retry_count: (job.retry_count || 0) + 1}).eq('id', job.id)`; the new
retry count comes from the selected snapshot, not the current row. -/
def failJob (db : QueueDB) (snapshot : EmbJob) (msg : String) : QueueDB :=
  { db with jobs := db.jobs.map (fun j =>
      if j.id = snapshot.id then
        { j with status := JobStatus.failed, error_message := some msg,
                 retry_count := snapshot.retry_count + 1 }
      else j) }

/-- `.from(job.table_name).update({embedding}).eq('id', job.record_id)`. -/
def setRecordEmbedding (db : QueueDB) (tbl : String) (rid : Nat)
    (vec : List ℚ) : QueueDB :=
  { db with records := db.records.map (fun p =>
      if p.1 = tbl && p.2.id = rid then (p.1, { p.2 with embedding := some vec })
      else p) }

/-- `.select('*').eq('status','pending').order('priority',
{ascending}).limit(10)`. -/
def selectPending (jobs : List EmbJob) : List EmbJob :=
  (sortByLe (fun a b => decide (a.priority ≤ b.priority))
    (jobs.filter (fun j => j.status = JobStatus.pending))).take 10

/-- The body of the drain loop for one selected job `job`: mark
processing, re-read the record, build the text, call the provider, and
either store the vector and complete, or fail with a message.  Returns
the new state and whether the job counted as processed. -/
def processJob (embed : String → Option (List ℚ)) (now : Nat)
    (db : QueueDB) (job : EmbJob) : QueueDB × Bool :=
  let db1 := setJobStatus db job.id JobStatus.processing
  match findRecord db1 job.table_name job.record_id with
  | none =>
    (failJob db1 job ("Record not found: " ++ job.table_name), false)
  | some r =>
    let text := recordText job.table_name r
    if text = "" then
      (failJob db1 job "No text content found for embedding", false)
    else
      match embed text with
      | none => (failJob db1 job "OpenAI API error", false)
      | some vec =>
        let db2 := setRecordEmbedding db1 job.table_name job.record_id vec
        (completeJob db2 job.id now, true)

/-- Run the loop body over a selection, accumulating the ids of the jobs
that were processed successfully. -/
def runJobs (embed : String → Option (List ℚ)) (now : Nat)
    (db : QueueDB) (sel : List EmbJob) : QueueDB × List Nat :=
  sel.foldl (fun acc j =>
    let step := processJob embed now acc.1 j
    (step.1, if step.2 then acc.2 ++ [j.id] else acc.2)) (db, [])

/-- One drain invocation: select the pending batch, process it, return
the new state with the processed and failed counts. -/
def drain (embed : String → Option (List ℚ)) (now : Nat)
    (db : QueueDB) : QueueDB × Nat × Nat :=
  let sel := selectPending db.jobs
  let out := runJobs embed now db sel
  (out.1, (out.2).length, sel.length - (out.2).length)

/-- Two drain workers racing on the same queue, in the schedule where
both run their pending-job SELECT against the same initial state before
either performs its first update; each then processes its selection.
Every individual `await`ed statement stays atomic. -/
def twoDrainsOverlapped (embed : String → Option (List ℚ)) (now : Nat)
    (db : QueueDB) : QueueDB × List Nat × List Nat :=
  let sel1 := selectPending db.jobs
  let sel2 := selectPending db.jobs
  let out1 := runJobs embed now db sel1
  let out2 := runJobs embed now out1.1 sel2
  (out2.1, out1.2, out2.2)

/-- Overwrite the description text of a record, the way a content
mutation between enqueue and drain would. -/
def mutateDescription (db : QueueDB) (tbl : String) (rid : Nat)
    (d : String) : QueueDB :=
  { db with records := db.records.map (fun p =>
      if p.1 = tbl && p.2.id = rid then (p.1, { p.2 with description := some d })
      else p) }

/-! ### Validation state: the `validation-response` and
`validation-webhook` edge functions -/

/-- The `response_data` JSON written by either handler. -/
structure ResponseData where
  approval_status : Option String
  corrections : Option String
  responded_by : Option String
  submitted_at : Nat
deriving DecidableEq, Repr

/-- A row of `validation_requests`: the columns the two handlers read or
write.  `validation_status` is kept as the raw string the handlers
write; the schema enum values are pending, sent, approved, rejected,
updated, expired. -/
structure ValidationRequest where
  id : Nat
  tenant_id : Nat
  entity_type : Option String
  entity_id : Option Nat
  message_id : Option String
  validation_status : String
  response_received_at : Option Nat
  corrections_provided : Option String
  response_data : Option ResponseData
  experience_created : Bool
  experience_id : Option Nat
  expires_at : Nat
deriving DecidableEq, Repr

/-- The validation store: the request rows, the experience rows, and the
id the next inserted experience receives. -/
structure VDB where
  validations : List ValidationRequest
  experiences : List Experience
  nextExperienceId : Nat
deriving DecidableEq, Repr

/-- `.update(...).eq('id', vid)` on `validation_requests`: rewrite every
row with the given id, leave the rest. -/
def updateValidationRows (db : VDB) (vid : Nat)
    (f : ValidationRequest → ValidationRequest) : VDB :=
  { db with validations := db.validations.map (fun w =>
      if w.id = vid then f w else w) }

/-- `getValidationByToken`: look the request up by `message_id` (which
stores the token); no status or expiry condition. -/
def getValidationByToken (db : VDB) (token : String) :
    Option ValidationRequest :=
  db.validations.find? (fun v => v.message_id = some token)

/-- JS `String.prototype.toLowerCase`, by characters. -/
def lowerCase (s : String) : String :=
  String.mk (s.data.map Char.toLower)

/-- Helper for `splitWs`: accumulate the current word (reversed). -/
def splitWsGo : List Char → List Char → List String
  | [], [] => []
  | [], acc => [String.mk acc.reverse]
  | c :: cs, acc =>
    if c.isWhitespace then
      if acc.isEmpty then splitWsGo cs []
      else String.mk acc.reverse :: splitWsGo cs []
    else splitWsGo cs (c :: acc)

/-- JS `split(/\s+/)` up to empty fragments, which the caller filters
away by length anyway: the maximal whitespace-free words of the text. -/
def splitWs (s : String) : List String :=
  splitWsGo s.data []

/-- JS `String.prototype.trim`: drop whitespace from both ends. -/
def trimWs (s : String) : String :=
  String.mk (((s.data.dropWhile Char.isWhitespace).reverse.dropWhile
    Char.isWhitespace).reverse)

/-- Keyword extraction from the handler: lower-case, split on
whitespace, keep tokens longer than 4 characters, take the first 10. -/
def extractKeywords (text : String) : List String :=
  (((splitWs (lowerCase text)).filter (fun w => 4 < w.length)).take 10)

/-- The POST branch of `validation-response`: look the request up by
token, overwrite its status and response fields, and — when corrections
are non-blank and the inline embedding call succeeds — insert a derived
experience row (with `is_validated` left at its FALSE default) and then
link it back in a separate update.  Returns the new store and the HTTP
status of the response. -/
def postValidationResponse (embed : String → Option (List ℚ)) (now : Nat)
    (token : Option String) (approval_status : String)
    (corrections : Option String) (db : VDB) : VDB × Nat :=
  match token with
  | none => (db, 400)
  | some tok =>
    if tok = "" then (db, 400)
    else
      match getValidationByToken db tok with
      | none => (db, 404)
      | some v =>
        let db1 := updateValidationRows db v.id (fun w =>
          { w with validation_status := approval_status,
                   response_received_at := some now,
                   corrections_provided := corrections,
                   response_data := some { approval_status := some approval_status,
                                           corrections := corrections,
                                           responded_by := none,
                                           submitted_at := now } })
        let db2 :=
          match corrections with
          | none => db1
          | some c =>
            if trimWs c = "" then db1
            else
              match embed c with
              | none => db1
              | some vec =>
                let exp : Experience :=
                  { id := db1.nextExperienceId
                    tenant_id := v.tenant_id
                    description := "Validation correction: " ++ c
                    keywords := extractKeywords c
                    entity_type := v.entity_type
                    entity_id := v.entity_id
                    entity_name := none
                    source_type := "validation_response"
                    source_id := some v.id
                    confidence_score := Rat.divInt 95 100
                    supersedes_experience_id := none
                    embedding := some vec
                    is_validated := false
                    created_at := now
                    created_by := "ai" }
                let db3 : VDB :=
                  { db1 with experiences := db1.experiences ++ [exp],
                             nextExperienceId := db1.nextExperienceId + 1 }
                updateValidationRows db3 v.id (fun w =>
                  { w with experience_created := true,
                           experience_id := some exp.id })
        (db2, 200)

/-- The `submit_validation` branch of `validation-webhook`: map the
submitted approval status onto the enum (anything that is neither
approved nor rejected becomes updated) and overwrite the request row,
keyed on the id only.  `.single()` demands exactly one updated row for
the 200 response, but the update itself has already been applied. -/
def webhookSubmitValidation (now : Nat) (validation_id : Nat)
    (approval_status : Option String) (corrections : Option String)
    (responded_by : Option String) (db : VDB) : VDB × Nat :=
  let st := if approval_status = some "approved" then "approved"
    else if approval_status = some "rejected" then "rejected"
    else "updated"
  let db1 := updateValidationRows db validation_id (fun w =>
    { w with validation_status := st,
             response_received_at := some now,
             corrections_provided := corrections,
             response_data := some { approval_status := approval_status,
                                     corrections := corrections,
                                     responded_by := responded_by,
                                     submitted_at := now } })
  (db1,
    if (db.validations.filter (fun w => w.id = validation_id)).length = 1
    then 200 else 404)

/-! ### Concrete instances used by witnesses and counterexamples -/

/-- A validated stored entry used in concrete instances. -/
def expA : Experience :=
  { id := 1, tenant_id := 0, description := "alpha", keywords := []
    entity_type := none, entity_id := none, entity_name := none
    source_type := "manual_entry", source_id := none
    confidence_score := 1, supersedes_experience_id := none
    embedding := some [1], is_validated := true, created_at := 0
    created_by := "ai" }

/-- An unvalidated stored entry used in concrete instances. -/
def expB : Experience :=
  { expA with id := 2, is_validated := false }

/-- A query under which every stored embedding is at distance 0. -/
def distW : Experience → Option ℚ := fun _ => some 0

/-- A query whose full-text branch matches nothing. -/
def ftsNone : Experience → Bool := fun _ => false

/-- A constant full-text relevance function. -/
def tsZero : Experience → ℚ := fun _ => 0

/-- An embedding provider that always succeeds. -/
def embedConst : String → Option (List ℚ) := fun _ => some [1]

/-- An embedding provider whose HTTP call always fails. -/
def embedFail : String → Option (List ℚ) := fun _ => none

/-- A dispatched (status sent) validation request with token tok-1. -/
def vr3 : ValidationRequest :=
  { id := 1, tenant_id := 7, entity_type := some "internal_resource"
    entity_id := some 4, message_id := some "tok-1"
    validation_status := "sent", response_received_at := none
    corrections_provided := none, response_data := none
    experience_created := false, experience_id := none, expires_at := 1000 }

/-- Store for the duplicate-delivery scenario. -/
def vdb3 : VDB := ⟨[vr3], [], 100⟩

/-- A sent validation request whose expiry timestamp (5) is long past. -/
def vr7 : ValidationRequest :=
  { vr3 with message_id := some "tok-7", expires_at := 5 }

/-- Store for the late-response scenario. -/
def vdb7 : VDB := ⟨[vr7], [], 0⟩

/-- A sent validation request with token tok-8. -/
def vr8 : ValidationRequest :=
  { vr3 with message_id := some "tok-8" }

/-- Store for the provider-failure scenario. -/
def vdb8 : VDB := ⟨[vr8], [], 0⟩

/-- A validation request already in the terminal status approved. -/
def vr10 : ValidationRequest :=
  { vr3 with message_id := some "tok-10", validation_status := "approved" }

/-- Store for the webhook status-mapping scenario. -/
def vdb10 : VDB := ⟨[vr10], [], 0⟩

/-- First delivery of the correction payload for tok-1. -/
def c3run1 : VDB × Nat :=
  postValidationResponse embedConst 10 (some "tok-1") "updated"
    (some "rate is actually 120") vdb3

/-- Second, duplicate delivery of the identical payload. -/
def c3run2 : VDB × Nat :=
  postValidationResponse embedConst 11 (some "tok-1") "updated"
    (some "rate is actually 120") c3run1.1

/-- The late response to the long-expired request, arriving at time 100. -/
def c7run : VDB × Nat :=
  postValidationResponse embedConst 100 (some "tok-7") "updated"
    (some "rate is actually 120") vdb7

/-- A correction response during which the embedding call fails. -/
def c8run : VDB × Nat :=
  postValidationResponse embedFail 10 (some "tok-8") "updated"
    (some "the rate should be 120") vdb8

/-- A pending embedding job targeting experience record 1. -/
def jobP : EmbJob :=
  { id := 1, table_name := "experience", record_id := 1
    status := JobStatus.pending, retry_count := 0, priority := 0
    error_message := none, processed_at := none }

/-- The experience content record the job targets. -/
def recE : ContentRecord :=
  { id := 1, name := none, description := some "old", rate_notes := none
    vendor_name := none, pricing_notes := none, policy_name := none
    requirements := none, keywords := none, project_title := none
    client_name := none, parsed_markdown := none, embedding := none }

/-- Queue state with one pending job and its record, for the race. -/
def qdb5 : QueueDB := ⟨[jobP], [("experience", recE)]⟩

/-- A job that failed once (retry count 1, below the spec's maximum 3). -/
def jobF : EmbJob :=
  { jobP with status := JobStatus.failed, retry_count := 1
              error_message := some "OpenAI API error" }

/-- Queue state holding only the once-failed job. -/
def qdb6 : QueueDB := ⟨[jobF], []⟩

/-- Queue state whose job points at a record that does not exist. -/
def qdbNoRec : QueueDB := ⟨[jobP], []⟩

/-- The state `qdbNoRec` reaches after the job fails record lookup. -/
def qdbFailed : QueueDB :=
  ⟨[{ jobP with status := JobStatus.failed
                error_message := some "Record not found: experience"
                retry_count := 1 }], []⟩

/-- A second validated stored entry, identical to `expA` except for id. -/
def expA2 : Experience := { expA with id := 2 }

/-- A validated entry with id 5, matched only by the vector branch of
the tie query. -/
def expC5 : Experience := { expA with id := 5 }

/-- A validated entry with id 3, matched only by the keyword branch of
the tie query. -/
def expC3 : Experience := { expA with id := 3 }

/-- A query whose vector branch sees only the id-5 entry. -/
def distC9 : Experience → Option ℚ :=
  fun e => if e.id = 5 then some 0 else none

/-- A query whose full-text branch matches only the id-3 entry. -/
def ftsC9 : Experience → Bool := fun e => e.id == 3

/-- A constant full-text relevance for the tie query. -/
def tsC9 : Experience → ℚ := fun _ => 1

/-! ### Bridge lemmas for the reducible rational operations -/

theorem qadd_eq (a b : ℚ) : qadd a b = a + b :=
  (Rat.add_def a b).symm

theorem qsub_eq (a b : ℚ) : qsub a b = a - b :=
  (Rat.sub_def a b).symm

theorem rrfFraction_eq (r : Nat) : rrfFraction r = 1 / (60 + (r : ℚ)) := by
  unfold rrfFraction
  rw [Rat.divInt_eq_div]
  push_cast
  ring

/-! ### Lemmas about the stable sort -/

theorem mem_insertLe (le : α → α → Bool) (x : α) (l : List α) (a : α) :
    a ∈ insertLe le x l ↔ a = x ∨ a ∈ l := by
  induction l with
  | nil => simp [insertLe]
  | cons y ys ih =>
    simp only [insertLe]
    by_cases h : le x y
    · simp [h]
    · simp [h, List.mem_cons, ih]
      tauto

theorem mem_sortByLe (le : α → α → Bool) (l : List α) (a : α) :
    a ∈ sortByLe le l ↔ a ∈ l := by
  induction l with
  | nil => simp [sortByLe]
  | cons b bs ih => simp [sortByLe, mem_insertLe, ih]

theorem length_insertLe (le : α → α → Bool) (x : α) (l : List α) :
    (insertLe le x l).length = l.length + 1 := by
  induction l with
  | nil => simp [insertLe]
  | cons y ys ih =>
    simp only [insertLe]
    by_cases h : le x y
    · simp [h]
    · simp [h, ih]

theorem length_sortByLe (le : α → α → Bool) (l : List α) :
    (sortByLe le l).length = l.length := by
  induction l with
  | nil => rfl
  | cons b bs ih => simp [sortByLe, length_insertLe, ih]

theorem perm_insertLe (le : α → α → Bool) (x : α) (l : List α) :
    (insertLe le x l).Perm (x :: l) := by
  induction l with
  | nil => simp [insertLe]
  | cons y ys ih =>
    simp only [insertLe]
    by_cases h : le x y
    · simp [h]
    · simpa [h] using ((ih.cons y).trans (List.Perm.swap x y ys))

theorem perm_sortByLe (le : α → α → Bool) (l : List α) :
    (sortByLe le l).Perm l := by
  induction l with
  | nil => simp [sortByLe]
  | cons b bs ih => exact (perm_insertLe le b (sortByLe le bs)).trans (ih.cons b)

theorem chain'_insertLe (le : α → α → Bool)
    (htot : ∀ a b, le a b = true ∨ le b a = true) (x : α) (l : List α)
    (hl : List.Chain' (fun a b => le a b = true) l) :
    List.Chain' (fun a b => le a b = true) (insertLe le x l) := by
  induction l with
  | nil => simp [insertLe]
  | cons y ys ih =>
    simp only [insertLe]
    by_cases h : le x y
    · simpa [h] using hl
    · have hyx : le y x = true := by
        rcases htot x y with h' | h'
        · exact absurd h' h
        · exact h'
      have hys : List.Chain' (fun a b => le a b = true) ys :=
        (List.chain'_cons'.mp hl).2
      have htail := ih hys
      simp only [h, if_false]
      refine List.chain'_cons'.mpr ⟨?_, htail⟩
      intro z hz
      cases ys with
      | nil =>
        simp [insertLe] at hz
        subst hz; exact hyx
      | cons w ws =>
        simp only [insertLe] at hz
        by_cases hxw : le x w
        · simp [hxw] at hz
          subst hz; exact hyx
        · simp [hxw] at hz
          subst hz
          exact (List.chain'_cons.mp hl).1

theorem chain'_sortByLe (le : α → α → Bool)
    (htot : ∀ a b, le a b = true ∨ le b a = true) (l : List α) :
    List.Chain' (fun a b => le a b = true) (sortByLe le l) := by
  induction l with
  | nil => simp [sortByLe]
  | cons b bs ih => exact chain'_insertLe le htot b (sortByLe le bs) ih

/-! ### Lemmas about the search pipeline -/

theorem fst_mem_withRanks (sim : Experience → ℚ) (n : Nat)
    (l : List Experience) (t : Experience × ℚ × Nat)
    (ht : t ∈ withRanks sim n l) : t.1 ∈ l := by
  induction l generalizing n with
  | nil => simp [withRanks] at ht
  | cons e es ih =>
    simp only [withRanks, List.mem_cons] at ht
    rcases ht with rfl | ht
    · exact List.mem_cons_self e es
    · exact List.mem_cons_of_mem _ (ih _ ht)

theorem entry_mem_fuseJoin (ss fts : List (Experience × ℚ × Nat))
    (w : SearchRow) (hw : w ∈ fuseJoin ss fts) :
    (∃ t ∈ ss, w.entry = t.1) ∨ (∃ u ∈ fts, w.entry = u.1) := by
  unfold fuseJoin at hw
  rcases List.mem_append.mp hw with h | h
  · rcases List.mem_map.mp h with ⟨t, ht, hEq⟩
    left
    refine ⟨t, ht, ?_⟩
    subst hEq
    cases hfind : fts.find? (fun u => u.1.id = t.1.id) <;> simp [hfind, fuseRow]
  · rcases List.mem_map.mp h with ⟨u, hu, hEq⟩
    right
    exact ⟨u, List.mem_of_mem_filter hu, by subst hEq; rfl⟩

theorem mem_vectorRanked (dist : Experience → Option ℚ) (match_threshold : ℚ)
    (p_entity_type : Option String) (tbl : List Experience)
    (t : Experience × ℚ × Nat)
    (ht : t ∈ vectorRanked dist match_threshold p_entity_type tbl) :
    t.1 ∈ tbl ∧ vectorPass dist match_threshold p_entity_type t.1 = true := by
  unfold vectorRanked at ht
  have h1 := fst_mem_withRanks _ _ _ _ ht
  have h2 := (mem_sortByLe _ _ _).mp h1
  exact ⟨List.mem_of_mem_filter h2, List.of_mem_filter h2⟩

theorem mem_keywordRanked (ts_rank : Experience → ℚ)
    (fts_match : Experience → Bool) (p_entity_type : Option String)
    (tbl : List Experience) (t : Experience × ℚ × Nat)
    (ht : t ∈ keywordRanked ts_rank fts_match p_entity_type tbl) :
    t.1 ∈ tbl ∧ keywordPass fts_match p_entity_type t.1 = true := by
  unfold keywordRanked at ht
  have h1 := fst_mem_withRanks _ _ _ _ ht
  have h2 := (mem_sortByLe _ _ _).mp h1
  exact ⟨List.mem_of_mem_filter h2, List.of_mem_filter h2⟩

theorem vectorPass_validated (dist : Experience → Option ℚ)
    (match_threshold : ℚ) (p_entity_type : Option String) (e : Experience)
    (h : vectorPass dist match_threshold p_entity_type e = true) :
    e.is_validated = true := by
  simp only [vectorPass, Bool.and_eq_true] at h
  exact h.1.1

theorem keywordPass_validated (fts_match : Experience → Bool)
    (p_entity_type : Option String) (e : Experience)
    (h : keywordPass fts_match p_entity_type e = true) :
    e.is_validated = true := by
  simp only [keywordPass, Bool.and_eq_true] at h
  exact h.1.1

/-! ### Claim C1 -/

/-- Claim C1: for every search over knowledge entries — any query
(modelled by the `dist`, `ts_rank`, `fts_match` parameters), threshold,
limit and optional entity-type filter — every row in the list returned
by `search_experience` comes from a stored entry with
`is_validated = true`; an entry with `is_validated = false` is never
returned. -/
theorem search_experience_only_validated
    (dist : Experience → Option ℚ) (ts_rank : Experience → ℚ)
    (fts_match : Experience → Bool) (match_threshold : ℚ) (match_count : Nat)
    (p_entity_type : Option String) (tbl : List Experience) (r : SearchRow)
    (hr : r ∈ search_experience dist ts_rank fts_match match_threshold
      match_count p_entity_type tbl) :
    r.entry.is_validated = true ∧ r.entry ∈ tbl := by
  unfold search_experience at hr
  have h1 := List.mem_of_mem_take hr
  have h2 := (mem_sortByLe _ _ _).mp h1
  rcases entry_mem_fuseJoin _ _ _ h2 with ⟨t, ht, he⟩ | ⟨u, hu, he⟩
  · have h3 := mem_vectorRanked _ _ _ _ _ ht
    rw [he]
    exact ⟨vectorPass_validated _ _ _ _ h3.2, h3.1⟩
  · have h3 := mem_keywordRanked _ _ _ _ _ hu
    rw [he]
    exact ⟨keywordPass_validated _ _ _ h3.2, h3.1⟩

theorem search_experience_only_validated_witness :
    (⟨expA, 1, Rat.divInt 1 61⟩ : SearchRow) ∈ search_experience distW tsZero
      ftsNone 0 20 none [expA, expB] ∧
    (⟨expA, 1, Rat.divInt 1 61⟩ : SearchRow).entry.is_validated = true ∧
    (⟨expA, 1, Rat.divInt 1 61⟩ : SearchRow).entry ∈ [expA, expB] :=
  ⟨by decide,
    search_experience_only_validated distW tsZero ftsNone 0 20 none
      [expA, expB] ⟨expA, 1, Rat.divInt 1 61⟩ (by decide)⟩

/-! ### Claim C3 -/

/-- Claim C3 (refuted, code bug): the handler correlates by the stored
token but never checks the current status, so delivering the same
response payload (token tok-1, status updated, corrections present)
twice inserts two derived experience rows for the same
ValidationRequest and re-applies the status write both times. -/
theorem duplicate_response_creates_two_entries :
    ((c3run2.1.experiences.filter (fun e => e.source_id = some 1)).length = 2) ∧
    c3run1.2 = 200 ∧ c3run2.2 = 200 := by
  decide

/-! ### Claim C7 -/

/-- Claim C7 (refuted, code bug): `getValidationByToken` and the POST
handler never consult `expires_at` and nothing in the repository writes
the status expired, so a response arriving at time 100 to a request that
expired at time 5 is accepted (HTTP 200), its status write is applied,
and a derived experience row is created — instead of the request being
expired and the response rejected as stale. -/
theorem late_response_applied_after_expiry :
    vr7.expires_at < 100 ∧
    c7run.2 = 200 ∧
    (c7run.1.validations.map (fun v => v.validation_status)) = ["updated"] ∧
    c7run.1.experiences.length = 1 := by
  decide

/-! ### Claim C8 -/

/-- Claim C8 (refuted, code bug): the status write, the experience
insert and the link-back update are three separate non-transactional
statements; when the inline embedding call fails after the status write,
the request is left with status updated and recorded corrections but no
derived experience row and no link — a partial application the claimed
both-or-neither atomicity forbids. -/
theorem status_updated_without_entry_on_embed_failure :
    (c8run.1.validations.map (fun v => v.validation_status)) = ["updated"] ∧
    (c8run.1.validations.map (fun v => v.corrections_provided)) =
      [some "the rate should be 120"] ∧
    c8run.1.experiences = [] ∧
    (c8run.1.validations.map (fun v => v.experience_created)) = [false] ∧
    (c8run.1.validations.map (fun v => v.experience_id)) = [none] := by
  decide

/-! ### Claim C10 -/

/-- Claim C10: in the Teams webhook, a `submit_validation` submission
whose approval status is neither approved nor rejected sets the
request's `validation_status` to updated — for every corrections value,
including none — and the write is applied to the row regardless of its
current status, since the update is keyed on the id alone. -/
theorem webhook_other_status_becomes_updated (now vid : Nat)
    (s c rb : Option String) (db : VDB)
    (h1 : s ≠ some "approved") (h2 : s ≠ some "rejected") :
    ∀ row ∈ (webhookSubmitValidation now vid s c rb db).1.validations,
      row.id = vid → row.validation_status = "updated" ∧
        row.corrections_provided = c ∧
        row.response_received_at = some now := by
  intro row hrow hid
  simp only [webhookSubmitValidation, updateValidationRows, List.mem_map] at hrow
  obtain ⟨w, hw, hEq⟩ := hrow
  by_cases hcond : w.id = vid
  · subst hEq
    simp [hcond, h1, h2]
  · subst hEq
    simp [hcond] at hid

theorem webhook_other_status_becomes_updated_witness :
    (some "other" : Option String) ≠ some "approved" ∧
    (some "other" : Option String) ≠ some "rejected" ∧
    ∀ row ∈ (webhookSubmitValidation 9 1 (some "other") none none
        vdb10).1.validations,
      row.id = 1 → row.validation_status = "updated" ∧
        row.corrections_provided = none ∧
        row.response_received_at = some 9 :=
  ⟨by decide, by decide,
    webhook_other_status_becomes_updated 9 1 (some "other") none none vdb10
      (by decide) (by decide)⟩

/-! ### Claim C4 -/

/-- Claim C4: the queue row carries no text, so a completing job embeds
the record text as re-read at processing time: mutating the record's
description twice before the drain leaves the stored vector equal to the
provider's embedding of the second text, and the drain reports one
processed job. -/
theorem drained_embedding_reflects_reread_text
    (embed : String → Option (List ℚ)) (now : Nat) (j : EmbJob)
    (r : ContentRecord) (t1 t2 : String) (vec : List ℚ)
    (hst : j.status = JobStatus.pending)
    (hid : r.id = j.record_id)
    (htext : ¬ recordText j.table_name { r with description := some t2 } = "")
    (hembed : embed (recordText j.table_name { r with description := some t2 })
      = some vec) :
    findRecord (drain embed now (mutateDescription (mutateDescription
        (QueueDB.mk [j] [(j.table_name, r)]) j.table_name j.record_id t1)
        j.table_name j.record_id t2)).1 j.table_name j.record_id =
      some { r with description := some t2, embedding := some vec } ∧
    (drain embed now (mutateDescription (mutateDescription
        (QueueDB.mk [j] [(j.table_name, r)]) j.table_name j.record_id t1)
        j.table_name j.record_id t2)).2.1 = 1 := by
  obtain ⟨rid, rn, rd, rrn, rvn, rpn, rpln, rrq, rkw, rpt, rcn, rpm, remb⟩ := r
  have hid' : rid = j.record_id := hid
  subst hid'
  have hm : mutateDescription (mutateDescription
      (QueueDB.mk [j] [(j.table_name,
        ContentRecord.mk j.record_id rn rd rrn rvn rpn rpln rrq rkw rpt rcn rpm
          remb)]) j.table_name j.record_id t1) j.table_name j.record_id t2 =
      QueueDB.mk [j] [(j.table_name,
        ContentRecord.mk j.record_id rn (some t2) rrn rvn rpn rpln rrq rkw rpt
          rcn rpm remb)] := by
    simp [mutateDescription]
  rw [hm]
  simp only [drain, selectPending, runJobs, processJob, findRecord,
    setJobStatus, setRecordEmbedding, completeJob, sortByLe, insertLe,
    List.filter, List.foldl, List.find?, List.map, List.take, hst, hembed]
  simp [htext, hembed]

theorem drained_embedding_reflects_reread_text_witness :
    jobP.status = JobStatus.pending ∧ recE.id = jobP.record_id ∧
    ¬ recordText jobP.table_name { recE with description := some "second text" }
      = "" ∧
    embedConst (recordText jobP.table_name
      { recE with description := some "second text" }) = some [1] ∧
    (findRecord (drain embedConst 0 (mutateDescription (mutateDescription
        (QueueDB.mk [jobP] [(jobP.table_name, recE)]) jobP.table_name
        jobP.record_id "first") jobP.table_name jobP.record_id
        "second text")).1 jobP.table_name jobP.record_id =
      some { recE with description := some "second text",
                       embedding := some [1] } ∧
    (drain embedConst 0 (mutateDescription (mutateDescription
        (QueueDB.mk [jobP] [(jobP.table_name, recE)]) jobP.table_name
        jobP.record_id "first") jobP.table_name jobP.record_id
        "second text")).2.1 = 1) :=
  ⟨by decide, by decide, by decide, rfl,
    drained_embedding_reflects_reread_text embedConst 0 jobP recE "first"
      "second text" [1] (by decide) (by decide) (by decide) rfl⟩

/-! ### Claim C5 -/

/-- Claim C5 (refuted, code bug): the pending-to-processing write is
`update({status:'processing'}).eq('id', job.id)` — keyed on the id only,
not conditional on the current status.  In the schedule where two drain
workers both run their SELECT before either update, both workers process
job 1 (each calls the provider and completes the job); moreover the loop
body succeeds even on a job already marked processing by someone else. -/
theorem both_drains_process_same_job :
    (twoDrainsOverlapped embedConst 0 qdb5).2.1 = [1] ∧
    (twoDrainsOverlapped embedConst 0 qdb5).2.2 = [1] ∧
    (processJob embedConst 0 (setJobStatus qdb5 1 JobStatus.processing)
      jobP).2 = true := by
  decide

/-! ### Lemmas for claim C6 -/

theorem failJob_rows (db : QueueDB) (j : EmbJob) (msg : String)
    (row : EmbJob) (hrow : row ∈ (failJob db j msg).jobs)
    (hid : row.id = j.id) :
    row.status = JobStatus.failed ∧ row.error_message = some msg ∧
      row.retry_count = j.retry_count + 1 := by
  unfold failJob at hrow
  simp only [List.mem_map] at hrow
  obtain ⟨w, hw, hEq⟩ := hrow
  by_cases h : w.id = j.id
  · subst hEq
    simp [h]
  · subst hEq
    simp [h] at hid

theorem selectPending_pending (jobs : List EmbJob) (k : EmbJob)
    (hk : k ∈ selectPending jobs) : k.status = JobStatus.pending := by
  unfold selectPending at hk
  have h1 := List.mem_of_mem_take hk
  have h2 := (mem_sortByLe _ _ _).mp h1
  have h3 := List.of_mem_filter h2
  simpa using h3

/-! ### Claim C6 -/

/-- Claim C6 (refuted): a job that has failed once — retry count 1,
below the spec's configured maximum of 3 — is already excluded from
every further drain (the selection takes only pending jobs and nothing
resets a failed job), so failed jobs are never retried at all, contrary
to the claimed retry-up-to-maximum behaviour. -/
theorem failed_job_never_retried :
    jobF.status = JobStatus.failed ∧ jobF.retry_count = 1 ∧
    selectPending qdb6.jobs = [] ∧
    drain embedConst 0 qdb6 = (qdb6, 0, 0) := by
  decide

/-- Claim C6 (amended): when processing a job fails for any reason
(record missing, empty text, provider error), the job row is marked
failed with the error message stored and the retry count incremented
from the selected snapshot; and a drain selects only pending jobs, so
every failed job — regardless of its retry count — is permanently
excluded from further drains. -/
theorem failure_marks_failed_and_failed_never_drained
    (embed : String → Option (List ℚ)) (now : Nat) (db : QueueDB)
    (j : EmbJob) (hfailed : (processJob embed now db j).2 = false) :
    (∀ row ∈ (processJob embed now db j).1.jobs, row.id = j.id →
      row.status = JobStatus.failed ∧ row.error_message.isSome = true ∧
      row.retry_count = j.retry_count + 1) ∧
    (∀ jobs : List EmbJob, ∀ k ∈ selectPending jobs,
      k.status = JobStatus.pending) := by
  refine ⟨?_, fun jobs k hk => selectPending_pending jobs k hk⟩
  intro row hrow hid
  simp only [processJob] at hfailed hrow
  cases hfind : findRecord (setJobStatus db j.id JobStatus.processing)
      j.table_name j.record_id with
  | none =>
    simp only [hfind] at hrow
    have h := failJob_rows _ _ _ _ hrow hid
    exact ⟨h.1, by simp [h.2.1], h.2.2⟩
  | some r =>
    simp only [hfind] at hfailed hrow
    by_cases htext : recordText j.table_name r = ""
    · rw [if_pos htext] at hrow
      have h := failJob_rows _ _ _ _ hrow hid
      exact ⟨h.1, by simp [h.2.1], h.2.2⟩
    · rw [if_neg htext] at hfailed hrow
      cases hembed : embed (recordText j.table_name r) with
      | none =>
        simp only [hembed] at hrow
        have h := failJob_rows _ _ _ _ hrow hid
        exact ⟨h.1, by simp [h.2.1], h.2.2⟩
      | some vec =>
        simp only [hembed] at hfailed
        simp at hfailed

theorem failure_marks_failed_and_failed_never_drained_witness :
    (processJob embedConst 0 qdbNoRec jobP).2 = false ∧
    ((∀ row ∈ (processJob embedConst 0 qdbNoRec jobP).1.jobs,
        row.id = jobP.id →
        row.status = JobStatus.failed ∧ row.error_message.isSome = true ∧
        row.retry_count = jobP.retry_count + 1) ∧
      (∀ jobs : List EmbJob, ∀ k ∈ selectPending jobs,
        k.status = JobStatus.pending)) :=
  ⟨by decide,
    failure_marks_failed_and_failed_never_drained embedConst 0 qdbNoRec jobP
      (by decide)⟩

/-! ### Lemmas for the fusion characterization (claims C2 and C9) -/

theorem rrfTermOpt_eq_rrfOf (o : Option Nat) : rrfTermOpt o = rrfOf o := by
  cases o with
  | none => rfl
  | some r => simp [rrfTermOpt, rrfOf, rrfFraction_eq]

theorem withRanks_map_fst (sim : Experience → ℚ) (n : Nat)
    (l : List Experience) : (withRanks sim n l).map (fun t => t.1) = l := by
  induction l generalizing n with
  | nil => rfl
  | cons e es ih => simp [withRanks, ih]

theorem mem_withRanks_of_mem (sim : Experience → ℚ) (e : Experience) :
    ∀ (l : List Experience) (n : Nat), e ∈ l →
      ∃ k, (e, sim e, k) ∈ withRanks sim n l := by
  intro l
  induction l with
  | nil => intro n he; cases he
  | cons a as ih =>
    intro n he
    simp only [withRanks]
    rcases List.mem_cons.mp he with rfl | h
    · exact ⟨n, List.mem_cons_self _ _⟩
    · obtain ⟨k, hk⟩ := ih (n + 1) h
      exact ⟨k, List.mem_cons_of_mem _ hk⟩

theorem find?_eq_some_of_mem_nodup (l : List (Experience × ℚ × Nat))
    (hN : (l.map (fun t => t.1.id)).Nodup) (t : Experience × ℚ × Nat)
    (ht : t ∈ l) : l.find? (fun u => u.1.id = t.1.id) = some t := by
  induction l with
  | nil => cases ht
  | cons a as ih =>
    simp only [List.map, List.nodup_cons] at hN
    rcases List.mem_cons.mp ht with rfl | h
    · exact List.find?_cons_of_pos _ (by simp)
    · have hne : ¬a.1.id = t.1.id := by
        intro hEq
        exact hN.1 (hEq ▸ List.mem_map.mpr ⟨t, h, rfl⟩)
      rw [List.find?_cons_of_neg _ (by simpa using hne)]
      exact ih hN.2 h

theorem rankIn_eq_of_mem (l : List (Experience × ℚ × Nat))
    (hN : (l.map (fun t => t.1.id)).Nodup) (t : Experience × ℚ × Nat)
    (ht : t ∈ l) : rankIn t.1 l = some t.2.2 := by
  unfold rankIn
  rw [find?_eq_some_of_mem_nodup l hN t ht]
  rfl

theorem rankIn_eq_none (e : Experience) (l : List (Experience × ℚ × Nat))
    (h : ∀ u ∈ l, u.1.id ≠ e.id) : rankIn e l = none := by
  unfold rankIn
  have hfind : l.find? (fun u => u.1.id = e.id) = none :=
    List.find?_eq_none.mpr (fun x hx => by simpa using h x hx)
  rw [hfind]
  rfl

theorem ids_nodup_ranked (sim : Experience → ℚ) (pass : Experience → Bool)
    (le : Experience → Experience → Bool) (tbl : List Experience)
    (hN : (tbl.map (fun e => e.id)).Nodup) :
    ((withRanks sim 1 (sortByLe le (tbl.filter pass))).map
      (fun t => t.1.id)).Nodup := by
  have h1 : ((tbl.filter pass).map (fun e => e.id)).Nodup :=
    List.Nodup.sublist ((tbl.filter_sublist).map _) hN
  have h2 : ((sortByLe le (tbl.filter pass)).map (fun e => e.id)).Perm
      ((tbl.filter pass).map (fun e => e.id)) :=
    (perm_sortByLe le (tbl.filter pass)).map _
  have h3 := h2.nodup_iff.mpr h1
  have h4 : (withRanks sim 1 (sortByLe le (tbl.filter pass))).map
      (fun t => t.1.id) =
      (sortByLe le (tbl.filter pass)).map (fun e => e.id) := by
    have := withRanks_map_fst sim 1 (sortByLe le (tbl.filter pass))
    calc (withRanks sim 1 (sortByLe le (tbl.filter pass))).map
          (fun t => t.1.id)
        = ((withRanks sim 1 (sortByLe le (tbl.filter pass))).map
            (fun t => t.1)).map (fun e => e.id) := by
          rw [List.map_map]
          rfl
      _ = (sortByLe le (tbl.filter pass)).map (fun e => e.id) := by rw [this]
  rw [h4]
  exact h3

theorem ids_nodup_vectorRanked (dist : Experience → Option ℚ)
    (match_threshold : ℚ) (p_entity_type : Option String)
    (tbl : List Experience) (hN : (tbl.map (fun e => e.id)).Nodup) :
    ((vectorRanked dist match_threshold p_entity_type tbl).map
      (fun t => t.1.id)).Nodup := by
  unfold vectorRanked
  exact ids_nodup_ranked _ _ _ tbl hN

theorem ids_nodup_keywordRanked (ts_rank : Experience → ℚ)
    (fts_match : Experience → Bool) (p_entity_type : Option String)
    (tbl : List Experience) (hN : (tbl.map (fun e => e.id)).Nodup) :
    ((keywordRanked ts_rank fts_match p_entity_type tbl).map
      (fun t => t.1.id)).Nodup := by
  unfold keywordRanked
  exact ids_nodup_ranked _ _ _ tbl hN

theorem rank_eq_rrf_sum (dist : Experience → Option ℚ)
    (ts_rank : Experience → ℚ) (fts_match : Experience → Bool)
    (match_threshold : ℚ) (p_entity_type : Option String)
    (tbl : List Experience) (hN : (tbl.map (fun e => e.id)).Nodup)
    (w : SearchRow)
    (hw : w ∈ fusedCandidates dist ts_rank fts_match match_threshold
      p_entity_type tbl) :
    w.rank = rrfOf (rankIn w.entry
        (vectorRanked dist match_threshold p_entity_type tbl)) +
      rrfOf (rankIn w.entry
        (keywordRanked ts_rank fts_match p_entity_type tbl)) := by
  have hNss := ids_nodup_vectorRanked dist match_threshold p_entity_type tbl hN
  have hNfts := ids_nodup_keywordRanked ts_rank fts_match p_entity_type tbl hN
  set ss := vectorRanked dist match_threshold p_entity_type tbl with hss_def
  set fts := keywordRanked ts_rank fts_match p_entity_type tbl with hfts_def
  unfold fusedCandidates at hw
  rw [← hss_def, ← hfts_def] at hw
  unfold fuseJoin at hw
  rcases List.mem_append.mp hw with h | h
  · rcases List.mem_map.mp h with ⟨t, ht, hEq⟩
    have hss : rankIn t.1 ss = some t.2.2 := rankIn_eq_of_mem ss hNss t ht
    cases hfind : fts.find? (fun u => u.1.id = t.1.id) with
    | some u =>
      rw [hfind] at hEq
      have hfts : rankIn t.1 fts = some u.2.2 := by
        unfold rankIn
        rw [hfind]
        rfl
      have hEq' : fuseRow t.1 (some t.2.1) (some t.2.2) (some u.2.1)
          (some u.2.2) = w := hEq
      subst hEq'
      simp only [fuseRow]
      rw [hss, hfts, qadd_eq, rrfTermOpt_eq_rrfOf, rrfTermOpt_eq_rrfOf]
    | none =>
      rw [hfind] at hEq
      have hfts : rankIn t.1 fts = none := by
        unfold rankIn
        rw [hfind]
        rfl
      have hEq' : fuseRow t.1 (some t.2.1) (some t.2.2) none none = w := hEq
      subst hEq'
      simp only [fuseRow]
      rw [hss, hfts, qadd_eq, rrfTermOpt_eq_rrfOf, rrfTermOpt_eq_rrfOf]
  · rcases List.mem_map.mp h with ⟨u, hu, hEq⟩
    have hufts : u ∈ fts := List.mem_of_mem_filter hu
    have hcond := List.of_mem_filter hu
    have hnone : rankIn u.1 ss = none := by
      apply rankIn_eq_none
      intro t' ht' hEq'
      simp only [Bool.not_eq_true', List.any_eq_false, decide_eq_false_iff_not]
        at hcond
      exact hcond t' ht' (by simpa using hEq')
    have hfts : rankIn u.1 fts = some u.2.2 := rankIn_eq_of_mem fts hNfts u hufts
    subst hEq
    simp only [fuseRow]
    rw [hnone, hfts, qadd_eq, rrfTermOpt_eq_rrfOf, rrfTermOpt_eq_rrfOf]

theorem mem_fusedCandidates_of_pass (dist : Experience → Option ℚ)
    (ts_rank : Experience → ℚ) (fts_match : Experience → Bool)
    (match_threshold : ℚ) (p_entity_type : Option String)
    (tbl : List Experience) (e : Experience) (he : e ∈ tbl)
    (hpass : vectorPass dist match_threshold p_entity_type e = true ∨
      keywordPass fts_match p_entity_type e = true) :
    e.id ∈ (fusedCandidates dist ts_rank fts_match match_threshold
      p_entity_type tbl).map (fun w => w.entry.id) := by
  set ss := vectorRanked dist match_threshold p_entity_type tbl with hss_def
  set fts := keywordRanked ts_rank fts_match p_entity_type tbl with hfts_def
  have key : ∃ w ∈ fuseJoin ss fts, w.entry.id = e.id := by
    rcases hpass with hv | hk
    · have hf : e ∈ tbl.filter (vectorPass dist match_threshold p_entity_type) :=
        List.mem_filter.mpr ⟨he, hv⟩
      have hs := (mem_sortByLe
        (fun a b => decide ((dist a).getD 0 ≤ (dist b).getD 0)) _ e).mpr hf
      obtain ⟨k, hk'⟩ := mem_withRanks_of_mem
        (fun e => qsub 1 ((dist e).getD 0)) e _ 1 hs
      have htss : ((e, qsub 1 ((dist e).getD 0), k) : Experience × ℚ × Nat)
          ∈ ss := by
        rw [hss_def]
        unfold vectorRanked
        exact hk'
      refine ⟨(fun t =>
        match fts.find? (fun u => u.1.id = t.1.id) with
        | some u => fuseRow t.1 (some t.2.1) (some t.2.2) (some u.2.1)
            (some u.2.2)
        | none => fuseRow t.1 (some t.2.1) (some t.2.2) none none)
          (e, qsub 1 ((dist e).getD 0), k), ?_, ?_⟩
      · unfold fuseJoin
        exact List.mem_append_left _ (List.mem_map.mpr ⟨_, htss, rfl⟩)
      · cases hfind : fts.find? (fun u =>
          u.1.id = ((e, qsub 1 ((dist e).getD 0), k) :
            Experience × ℚ × Nat).1.id) <;> simp [hfind, fuseRow]
    · have hf : e ∈ tbl.filter (keywordPass fts_match p_entity_type) :=
        List.mem_filter.mpr ⟨he, hk⟩
      have hs := (mem_sortByLe
        (fun a b => decide (ts_rank b ≤ ts_rank a)) _ e).mpr hf
      obtain ⟨k, hk'⟩ := mem_withRanks_of_mem ts_rank e _ 1 hs
      have htfts : ((e, ts_rank e, k) : Experience × ℚ × Nat) ∈ fts := by
        rw [hfts_def]
        unfold keywordRanked
        exact hk'
      by_cases hany : ss.any (fun t => t.1.id = e.id) = true
      · obtain ⟨t, ht, hid⟩ := List.any_eq_true.mp hany
        refine ⟨(fun t' =>
          match fts.find? (fun u => u.1.id = t'.1.id) with
          | some u => fuseRow t'.1 (some t'.2.1) (some t'.2.2) (some u.2.1)
              (some u.2.2)
          | none => fuseRow t'.1 (some t'.2.1) (some t'.2.2) none none) t,
          ?_, ?_⟩
        · unfold fuseJoin
          exact List.mem_append_left _ (List.mem_map.mpr ⟨t, ht, rfl⟩)
        · have hid' : t.1.id = e.id := by simpa using hid
          cases hfind : fts.find? (fun u => u.1.id = t.1.id) <;>
            simp only [hfind, fuseRow] <;> exact hid'
      · refine ⟨fuseRow e none none (some (ts_rank e)) (some k), ?_, rfl⟩
        unfold fuseJoin
        refine List.mem_append_right _ (List.mem_map.mpr
          ⟨(e, ts_rank e, k), ?_, rfl⟩)
        refine List.mem_filter.mpr ⟨htfts, ?_⟩
        simp only [Bool.not_eq_true'] at hany ⊢
        simpa using hany
  obtain ⟨w, hw, hwid⟩ := key
  have : w ∈ fusedCandidates dist ts_rank fts_match match_threshold
      p_entity_type tbl := by
    unfold fusedCandidates
    rw [← hss_def, ← hfts_def]
    exact hw
  exact List.mem_map.mpr ⟨w, this, hwid⟩

theorem rankDescTotal (a b : SearchRow) :
    decide (b.rank ≤ a.rank) = true ∨ decide (a.rank ≤ b.rank) = true := by
  rcases le_total b.rank a.rank with h | h
  · left; exact decide_eq_true h
  · right; exact decide_eq_true h

/-! ### Claim C2 -/

/-- Claim C2: over a stored table with distinct ids, every row returned
by `search_experience` has fused score `Σ branch 1/(60 + rank)`, where a
record absent from a branch contributes 0; the result is sorted
descending by fused score and truncated to the limit; and every record
that passes either branch filter appears among the fused candidates
(full outer join, not intersection). -/
theorem search_experience_rrf_spec (dist : Experience → Option ℚ)
    (ts_rank : Experience → ℚ) (fts_match : Experience → Bool)
    (match_threshold : ℚ) (match_count : Nat) (p_entity_type : Option String)
    (tbl : List Experience) (hN : (tbl.map (fun e => e.id)).Nodup) :
    (∀ w ∈ search_experience dist ts_rank fts_match match_threshold
        match_count p_entity_type tbl,
      w.rank = rrfOf (rankIn w.entry
          (vectorRanked dist match_threshold p_entity_type tbl)) +
        rrfOf (rankIn w.entry
          (keywordRanked ts_rank fts_match p_entity_type tbl))) ∧
    (search_experience dist ts_rank fts_match match_threshold match_count
      p_entity_type tbl).Chain' (fun a b => b.rank ≤ a.rank) ∧
    (search_experience dist ts_rank fts_match match_threshold match_count
      p_entity_type tbl).length =
      min match_count (fusedCandidates dist ts_rank fts_match
        match_threshold p_entity_type tbl).length ∧
    (∀ e ∈ tbl, (vectorPass dist match_threshold p_entity_type e = true ∨
        keywordPass fts_match p_entity_type e = true) →
      e.id ∈ (fusedCandidates dist ts_rank fts_match match_threshold
        p_entity_type tbl).map (fun w => w.entry.id)) := by
  refine ⟨?_, ?_, ?_, fun e he hp => mem_fusedCandidates_of_pass dist ts_rank
    fts_match match_threshold p_entity_type tbl e he hp⟩
  · intro w hw
    unfold search_experience at hw
    have h1 := List.mem_of_mem_take hw
    have h2 := (mem_sortByLe _ _ _).mp h1
    exact rank_eq_rrf_sum dist ts_rank fts_match match_threshold p_entity_type
      tbl hN w h2
  · unfold search_experience
    refine List.Chain'.prefix ?_ (List.take_prefix _ _)
    exact (chain'_sortByLe _ rankDescTotal _).imp
      (fun a b h => of_decide_eq_true h)
  · unfold search_experience
    rw [List.length_take, length_sortByLe]

theorem search_experience_rrf_spec_witness :
    (([expA, expB].map (fun e => e.id)).Nodup) ∧
    ((∀ w ∈ search_experience distW tsZero ftsNone 0 20 none [expA, expB],
      w.rank = rrfOf (rankIn w.entry (vectorRanked distW 0 none [expA, expB])) +
        rrfOf (rankIn w.entry (keywordRanked tsZero ftsNone none
          [expA, expB]))) ∧
    (search_experience distW tsZero ftsNone 0 20 none
      [expA, expB]).Chain' (fun a b => b.rank ≤ a.rank) ∧
    (search_experience distW tsZero ftsNone 0 20 none [expA, expB]).length =
      min 20 (fusedCandidates distW tsZero ftsNone 0 none
        [expA, expB]).length ∧
    (∀ e ∈ [expA, expB], (vectorPass distW 0 none e = true ∨
        keywordPass ftsNone none e = true) →
      e.id ∈ (fusedCandidates distW tsZero ftsNone 0 none [expA, expB]).map
        (fun w => w.entry.id))) :=
  ⟨by decide,
    search_experience_rrf_spec distW tsZero ftsNone 0 20 none [expA, expB]
      (by decide)⟩

/-! ### Claim C9 -/

/-- Claim C9 (refuted): `ORDER BY rank DESC` has no id tie-break, and
branch ranks assigned by `ROW_NUMBER()` depend on the physical row
order.  A vector-only record with id 5 and a keyword-only record with
id 3 tie at fused score 1/61 yet are returned in order [5, 3]; and the
same stored row set in two physical orders yields two different result
lists, so the output is not a function of the stored data alone. -/
theorem search_ties_not_deterministic_by_id :
    ((search_experience distC9 tsC9 ftsC9 0 20 none [expC3, expC5]).map
      (fun w => w.entry.id)) = [5, 3] ∧
    ((search_experience distC9 tsC9 ftsC9 0 20 none [expC3, expC5]).map
      (fun w => w.rank)) = [Rat.divInt 1 61, Rat.divInt 1 61] ∧
    search_experience distW tsZero ftsNone 0 20 none [expA, expA2] ≠
      search_experience distW tsZero ftsNone 0 20 none [expA2, expA] ∧
    [expA, expA2].Perm [expA2, expA] := by
  refine ⟨by decide, by decide, by decide, ?_⟩
  exact List.Perm.swap expA2 expA []

/-- Claim C9 (amended): the output is a deterministic function of the
query and of the stored rows in their physical order, sorted descending
by fused score; equal-score records keep the candidate (join) order —
vector-branch rows before keyword-only rows — rather than being ordered
by record id, and permuting the stored rows may change the result. -/
theorem search_experience_sorted_desc (dist : Experience → Option ℚ)
    (ts_rank : Experience → ℚ) (fts_match : Experience → Bool)
    (match_threshold : ℚ) (match_count : Nat) (p_entity_type : Option String)
    (tbl : List Experience) :
    (search_experience dist ts_rank fts_match match_threshold match_count
      p_entity_type tbl).Chain' (fun a b => b.rank ≤ a.rank) := by
  unfold search_experience
  refine List.Chain'.prefix ?_ (List.take_prefix _ _)
  exact (chain'_sortByLe _ rankDescTotal _).imp
    (fun a b h => of_decide_eq_true h)

end ProposalMCP
